import Mathlib

/-!
Shallow embedding of `pkg/server/api/enroll.go` from square/sharkey: the
certificate-issuance HTTP handlers (`Enroll`, `EnrollHost`, `EnrollUser`),
principal derivation (`signHost`), certificate construction and signing
(`sign`), duration and permission resolution (`getDurationForCertType`,
`getPermissionsForCertType`), and the transport authentication helpers
(`clientAuthenticated`, `clientHostnameMatches`, `proxyAuthenticated`).

External collaborators (the storage backend, `crypto/rand`, `time.Now`,
`time.ParseDuration`, the ssh library's `SignCert`/`Marshal`, and x509
hostname verification) are modelled as oracle fields of the `Api` structure
and of the request, so every handler is a pure function of the request and
those oracles.  Handlers additionally return the list of ledger
(`RecordIssuance`) calls they made and the certificates they signed, so
claims about "no ledger write" and about the signed certificate's fields
can be stated directly about the handler's observable behaviour.
-/

namespace Sharkey

/-- ssh.UserCert from golang.org/x/crypto/ssh. -/
def sshUserCert : Nat := 1

/-- ssh.HostCert from golang.org/x/crypto/ssh. -/
def sshHostCert : Nat := 2

/-- an SSH public key as produced by ssh.ParseAuthorizedKey: its algorithm
name (`Type()`) and its wire encoding (`Marshal()`). -/
structure PubKey where
  keyType : String
  wire : List Nat
deriving DecidableEq, Repr

/-- strings.HasSuffix from the Go standard library, as a computation on the
strings' character lists. -/
def goHasSuffix (s target : String) : Bool :=
  target.data.isSuffixOf s.data

/-- strings.TrimSuffix from the Go standard library: drop the suffix when
it is present, return the string unchanged otherwise. -/
def trimSuffix (s target : String) : String :=
  if goHasSuffix s target then ⟨s.data.take (s.data.length - target.data.length)⟩ else s

/-- config.AuthenticatingProxy. -/
structure AuthenticatingProxy where
  hostname : String
  usernameHeader : String
deriving DecidableEq, Repr

/-- config.SSH. -/
structure SSHConf where
  userCertExtensions : List String
deriving DecidableEq, Repr

/-- the part of config.Config read by enroll.go.  The Go `Aliases` map is
modelled as an association list with distinct keys, looked up with
`List.lookup`. -/
structure Config where
  hostCertDuration : String
  userCertDuration : String
  stripSuffix : String
  aliases : List (String × List String)
  ssh : SSHConf
  authenticatingProxy : Option AuthenticatingProxy
deriving DecidableEq, Repr

/-- ssh.Permissions: two string-to-string maps, modelled as association
lists (a nil Go map is the empty list). -/
structure Permissions where
  criticalOptions : List (String × String)
  extensions : List (String × String)
deriving DecidableEq, Repr

/-- Go time.Time.Unix(): whole seconds since the epoch, rounding toward
negative infinity; a Go time is carried as integer nanoseconds. -/
def unixSeconds (t : Int) : Int := t.fdiv 1000000000

/-- the Go conversion uint64(int64 value): reduction modulo 2^64. -/
def toUint64 (i : Int) : Nat := (i % (2 ^ 64 : Int)).toNat

/-- ssh.Certificate, with the fields Api.sign fills in.  `signature` is
`none` on the template and `some blob` after SignCert succeeds. -/
structure Certificate where
  nonce : List Nat
  key : PubKey
  serial : Nat
  certType : Nat
  keyId : String
  validPrincipals : List String
  validAfter : Nat
  validBefore : Nat
  permissions : Permissions
  signature : Option (List Nat)
deriving DecidableEq, Repr

/-- a leaf certificate of a verified TLS chain: all the handlers do with it
is call x509.Certificate.VerifyHostname, so it is modelled by that
predicate (true exactly where VerifyHostname returns nil). -/
structure TLSCert where
  verifyHostnameOk : String → Bool

/-- one entry of r.TLS.VerifiedChains; Go's TLS layer guarantees a verified
chain is non-empty, with the leaf certificate first. -/
structure VerifiedChain where
  leaf : TLSCert
  rest : List TLSCert

/-- the parts of *http.Request the handlers read: the verified TLS chains,
the header map (Header.Get returns "" for an absent header), and the result
of reading the body and parsing it with ssh.ParseAuthorizedKey (the two
fallible steps of readPubkey, jointly). -/
structure Request where
  verifiedChains : List VerifiedChain
  header : String → String
  body : Except String PubKey

/-- the Api receiver together with its external collaborators as oracles:
`recordIssuance` is storage.RecordIssuance; `randNonce` is the outcome of
filling the 32-byte nonce buffer from crypto/rand; `nowNanos` is time.Now()
as nanoseconds since the epoch; `parseDuration` is time.ParseDuration
yielding nanoseconds; `signCert` is ssh.Certificate.SignCert with the CA
signer, returning the signature blob; `b64cert` is
base64.StdEncoding.EncodeToString of Certificate.Marshal(). -/
structure Api where
  conf : Config
  recordIssuance : Nat → String → PubKey → Except String Nat
  randNonce : Except String (List Nat)
  nowNanos : Int
  parseDuration : String → Except String Int
  signCert : Certificate → Except String (List Nat)
  b64cert : Certificate → String

/-- one storage.RecordIssuance invocation, by its arguments. -/
structure LedgerCall where
  certType : Nat
  identity : String
  key : PubKey
deriving DecidableEq, Repr

/-- an HTTP response: status code and body.  http.Error appends a newline
to its message; a successful handler writes the certificate line with the
implicit 200 status. -/
structure HttpResponse where
  code : Nat
  body : String
deriving DecidableEq, Repr

/-- the observable outcome of one handler invocation: the response, the
ledger calls performed, and the certificates successfully signed. -/
structure FlowResult where
  response : HttpResponse
  ledgerCalls : List LedgerCall
  signedCerts : List Certificate
deriving DecidableEq, Repr

/-- clientAuthenticated: len(r.TLS.VerifiedChains) > 0. -/
def clientAuthenticated (r : Request) : Bool :=
  decide (r.verifiedChains.length > 0)

/-- clientHostnameMatches: false when the verified-chain list is empty,
otherwise VerifyHostname on the leaf of the first verified chain
(VerifiedChains[0][0]). -/
def clientHostnameMatches (hostname : String) (r : Request) : Bool :=
  match r.verifiedChains with
  | [] => false
  | chain :: _ => chain.leaf.verifyHostnameOk hostname

/-- readPubkey: read the request body and parse it with
ssh.ParseAuthorizedKey. -/
def readPubkey (r : Request) : Except String PubKey := r.body

/-- encodeCert: "<key type>-cert-v01@openssh.com <base64 of Marshal()>\n";
the Go function's error component is always nil. -/
def encodeCert (c : Api) (certificate : Certificate) : Except String String :=
  .ok (certificate.key.keyType ++ "-cert-v01@openssh.com " ++ c.b64cert certificate ++ "\n")

/-- getDurationForCertType: switch over the cert type, parsing the
configured duration string for that type; unknown types are an error. -/
def getDurationForCertType (parseDur : String → Except String Int) (cfg : Config) (certType : Nat) : Except String Int :=
  if certType == sshHostCert then parseDur cfg.hostCertDuration
  else if certType == sshUserCert then parseDur cfg.userCertDuration
  else .error ("unknown cert type " ++ toString certType)

/-- one Go map assignment m[k] = v on an association-list map: replace the
value when the key is present, append otherwise. -/
def mapSet (m : List (String × String)) (k v : String) : List (String × String) :=
  if m.any (fun p => p.1 == k) then m.map (fun p => if p.1 == k then (k, v) else p)
  else m ++ [(k, v)]

/-- getPermissionsForCertType: only user certificates, and only with a
non-nil config and a non-empty configured extension list, get extensions;
each configured name is assigned the empty string in a fresh map. -/
def getPermissionsForCertType (cfg : Option SSHConf) (certType : Nat) : Permissions :=
  if certType == sshUserCert then
    match cfg with
    | some conf =>
      if conf.userCertExtensions.length > 0 then
        { criticalOptions := []
          extensions := conf.userCertExtensions.foldl (fun m ext => mapSet m ext "") [] }
      else { criticalOptions := [], extensions := [] }
    | none => { criticalOptions := [], extensions := [] }
  else { criticalOptions := [], extensions := [] }

/-- the ssh.Certificate template assembled inside Api.sign, before
SignCert runs: startTime is time.Now(), endTime is startTime.Add(duration),
and the validity fields are uint64 casts of their Unix() seconds. -/
def mkTemplate (c : Api) (keyId : String) (principals : List String) (serial certType : Nat) (pubkey : PubKey) (nonce : List Nat) (duration : Int) : Certificate :=
  { nonce := nonce
    key := pubkey
    serial := serial
    certType := certType
    keyId := keyId
    validPrincipals := principals
    validAfter := toUint64 (unixSeconds c.nowNanos)
    validBefore := toUint64 (unixSeconds (c.nowNanos + duration))
    permissions := getPermissionsForCertType (some c.conf.ssh) certType
    signature := none }

/-- Api.sign: draw the nonce from crypto/rand, resolve the duration for the
cert type, assemble the template, and SignCert it; each failure aborts. -/
def Api.sign (c : Api) (keyId : String) (principals : List String) (serial : Nat) (certType : Nat) (pubkey : PubKey) : Except String Certificate :=
  match c.randNonce with
  | .error e => .error e
  | .ok nonce =>
    match getDurationForCertType c.parseDuration c.conf certType with
    | .error e => .error e
    | .ok duration =>
      let template := mkTemplate c keyId principals serial certType pubkey nonce duration
      match c.signCert template with
      | .error e => .error e
      | .ok sig => .ok { template with signature := some sig }

/-- the principal list built at the top of Api.signHost: the hostname, then
the suffix-stripped hostname when a non-empty configured suffix matches,
then the configured aliases of the hostname. -/
def hostPrincipals (conf : Config) (hostname : String) : List String :=
  let principals := [hostname]
  let principals :=
    if conf.stripSuffix != "" && goHasSuffix hostname conf.stripSuffix then
      principals ++ [trimSuffix hostname conf.stripSuffix]
    else principals
  match List.lookup hostname conf.aliases with
  | some aliases => principals ++ aliases
  | none => principals

/-- Api.signHost: build the host principal list and sign a HostCert. -/
def Api.signHost (c : Api) (hostname : String) (serial : Nat) (pubkey : PubKey) : Except String Certificate :=
  c.sign hostname (hostPrincipals c.conf hostname) serial sshHostCert pubkey

/-- Api.EnrollHost: parse the public key, record the issuance, sign, and
encode.  Go returns only (string, error); the Certificate component and
the ledger-call list are the instrumentation described in the header. -/
def Api.EnrollHost (c : Api) (hostname : String) (r : Request) : Except String (Certificate × String) × List LedgerCall :=
  match readPubkey r with
  | .error e => (.error e, [])
  | .ok pubkey =>
    match c.recordIssuance sshHostCert hostname pubkey with
    | .error e => (.error e, [⟨sshHostCert, hostname, pubkey⟩])
    | .ok id =>
      match c.signHost hostname id pubkey with
      | .error e => (.error e, [⟨sshHostCert, hostname, pubkey⟩])
      | .ok signedCert =>
        match encodeCert c signedCert with
        | .error e => (.error e, [⟨sshHostCert, hostname, pubkey⟩])
        | .ok s => (.ok (signedCert, s), [⟨sshHostCert, hostname, pubkey⟩])

/-- Api.Enroll, the host-enrollment HTTP handler: 401 without a client
chain, 403 when the chain does not match the claimed hostname, 500 with the
error's text on any EnrollHost failure, 200 with the certificate line on
success. -/
def Api.Enroll (c : Api) (hostname : String) (r : Request) : FlowResult :=
  if !(clientAuthenticated r) then
    ⟨⟨401, "no client certificate provided\n"⟩, [], []⟩
  else if !(clientHostnameMatches hostname r) then
    ⟨⟨403, "hostname does not match certificate\n"⟩, [], []⟩
  else
    match c.EnrollHost hostname r with
    | (.error e, calls) => ⟨⟨500, e ++ "\n"⟩, calls, []⟩
    | (.ok (cert, s), calls) => ⟨⟨200, s⟩, calls, [cert]⟩

/-- proxyAuthenticated: 404 when no authenticating proxy is configured,
401 when the connection is not an authenticated connection from the
configured proxy hostname, 401 when the username header is empty;
otherwise the claimed username. -/
def proxyAuthenticated (ap : Option AuthenticatingProxy) (r : Request) : Except HttpResponse String :=
  match ap with
  | none => .error ⟨404, "client certificates are unavailable\n"⟩
  | some ap =>
    if !(clientAuthenticated r && clientHostnameMatches ap.hostname r) then
      .error ⟨401, "request didn't come from proxy\n"⟩
    else
      let user := r.header ap.usernameHeader
      if user == "" then .error ⟨401, "no username supplied\n"⟩
      else .ok user

/-- Api.EnrollUser, the user-enrollment HTTP handler: proxy authorization,
pubkey parse (400 on failure), ledger write, signing with principals
[user], and encoding, with 500 plus the error's text on internal failure. -/
def Api.EnrollUser (c : Api) (r : Request) : FlowResult :=
  match proxyAuthenticated c.conf.authenticatingProxy r with
  | .error resp => ⟨resp, [], []⟩
  | .ok user =>
    match readPubkey r with
    | .error e => ⟨⟨400, e ++ "\n"⟩, [], []⟩
    | .ok pk =>
      match c.recordIssuance sshUserCert user pk with
      | .error e => ⟨⟨500, e ++ "\n"⟩, [⟨sshUserCert, user, pk⟩], []⟩
      | .ok id =>
        match c.sign user [user] id sshUserCert pk with
        | .error e => ⟨⟨500, e ++ "\n"⟩, [⟨sshUserCert, user, pk⟩], []⟩
        | .ok certificate =>
          match encodeCert c certificate with
          | .error e => ⟨⟨500, e ++ "\n"⟩, [⟨sshUserCert, user, pk⟩], [certificate]⟩
          | .ok s => ⟨⟨200, s⟩, [⟨sshUserCert, user, pk⟩], [certificate]⟩

/-- the spec's principal-derivation rule for host certificates, following
the wording of §4.3: principals start with the identity; when the
configured suffix is non-empty and the identity ends with it, the identity
with the suffix removed follows; the configured aliases of the identity
follow in configured order. -/
def derivePrincipalsHost (conf : Config) (identity : String) : List String :=
  [identity]
    ++ (if conf.stripSuffix != "" && goHasSuffix identity conf.stripSuffix then
          [trimSuffix identity conf.stripSuffix]
        else [])
    ++ ((List.lookup identity conf.aliases).getD [])

/-- a concrete public key used by the concrete instances below. -/
def pkC : PubKey := ⟨"ssh-ed25519", [1, 2, 3]⟩

/-- a leaf certificate whose VerifyHostname succeeds exactly on the listed
hostnames. -/
def leafFor (hosts : List String) : TLSCert :=
  ⟨fun h => hosts.contains h⟩

/-- the concrete configuration of the claims' examples: suffix
".example.com", aliases for "host.example.com", user-cert extensions, and
an authenticating proxy. -/
def confC : Config :=
  { hostCertDuration := "168h"
    userCertDuration := "24h"
    stripSuffix := ".example.com"
    aliases := [("host.example.com", ["a.example.com", "b.example.com"])]
    ssh := ⟨["permit-X11-forwarding", "permit-pty"]⟩
    authenticatingProxy := some ⟨"proxy.example.com", "X-Forwarded-User"⟩ }

/-- time.ParseDuration restricted to the duration strings of `confC`
(nanosecond results, as in Go). -/
def parseDurC : String → Except String Int := fun s =>
  if s == "168h" then .ok 604800000000000
  else if s == "24h" then .ok 86400000000000
  else .error ("time: invalid duration " ++ s)

/-- a concrete Api whose oracles all succeed: the ledger allocates serial
42, the nonce is 32 bytes of 7, the clock reads 5 s past the epoch. -/
def apiC : Api :=
  { conf := confC
    recordIssuance := fun _ _ _ => .ok 42
    randNonce := .ok (List.replicate 32 7)
    nowNanos := 5000000000
    parseDuration := parseDurC
    signCert := fun _ => .ok [9, 9]
    b64cert := fun _ => "Q0VSVA==" }

/-- a host request from "host.example.com" with a parseable key. -/
def rHost : Request :=
  ⟨[⟨leafFor ["host.example.com"], []⟩], fun _ => "", .ok pkC⟩

/-- a request with no verified client certificate chain. -/
def rNoChain : Request :=
  ⟨[], fun _ => "", .ok pkC⟩

/-- a request whose client certificate is for a different hostname. -/
def rWrongHost : Request :=
  ⟨[⟨leafFor ["other.example.com"], []⟩], fun _ => "", .ok pkC⟩

/-- a host request that authenticates but whose body is not a parseable
public key. -/
def rBadKey : Request :=
  ⟨[⟨leafFor ["host.example.com"], []⟩], fun _ => "", .error "ssh: no key found"⟩

/-- a user request arriving from the configured proxy, asserting the
username "host.example.com" — deliberately equal to a configured alias-map
key and ending with the configured strip suffix. -/
def rUserC : Request :=
  ⟨[⟨leafFor ["proxy.example.com"], []⟩],
   fun h => if h == "X-Forwarded-User" then "host.example.com" else "",
   .ok pkC⟩

/-- the certificate `apiC` issues for the host flow on `rHost`. -/
def certHostC : Certificate :=
  { nonce := List.replicate 32 7
    key := pkC
    serial := 42
    certType := 2
    keyId := "host.example.com"
    validPrincipals := ["host.example.com", "host", "a.example.com", "b.example.com"]
    validAfter := 5
    validBefore := 604805
    permissions := ⟨[], []⟩
    signature := some [9, 9] }

/-- the certificate `apiC` issues for the user flow on `rUserC`. -/
def certUserC : Certificate :=
  { nonce := List.replicate 32 7
    key := pkC
    serial := 42
    certType := 1
    keyId := "host.example.com"
    validPrincipals := ["host.example.com"]
    validAfter := 5
    validBefore := 86405
    permissions := ⟨[], [("permit-X11-forwarding", ""), ("permit-pty", "")]⟩
    signature := some [9, 9] }

/-- `apiC` with a sub-second host-certificate duration: "1500ms" parses
successfully (to 1500000000 ns) but is not a whole number of seconds. -/
def api1500 : Api :=
  { apiC with
    conf := { confC with hostCertDuration := "1500ms" }
    nowNanos := 0
    parseDuration := fun s =>
      if s == "1500ms" then .ok 1500000000
      else .error ("time: invalid duration " ++ s) }

/-- the certificate `api1500` produces when signing a host certificate. -/
def cert1500 : Certificate :=
  { nonce := List.replicate 32 7
    key := pkC
    serial := 1
    certType := 2
    keyId := "h"
    validPrincipals := ["h"]
    validAfter := 0
    validBefore := 1
    permissions := ⟨[], []⟩
    signature := some [9, 9] }

/-- `apiC` with a failing storage backend. -/
def apiStorageFail : Api :=
  { apiC with recordIssuance := fun _ _ _ => .error "disk failure: table locked" }

/-- `apiC` with no authenticating proxy configured. -/
def apiNoProxy : Api :=
  { apiC with conf := { confC with authenticatingProxy := none } }

/-- Successful signing decomposes into its three oracle steps: the nonce was
drawn, the duration resolved, SignCert succeeded on the assembled template,
and the result is that template carrying the signature. -/
theorem sign_ok_elim (c : Api) (keyId : String) (ps : List String) (serial certType : Nat) (pk : PubKey) (cert : Certificate)
    (h : c.sign keyId ps serial certType pk = .ok cert) :
    ∃ nonce sig duration,
      c.randNonce = .ok nonce ∧
      getDurationForCertType c.parseDuration c.conf certType = .ok duration ∧
      c.signCert (mkTemplate c keyId ps serial certType pk nonce duration) = .ok sig ∧
      cert = { mkTemplate c keyId ps serial certType pk nonce duration with signature := some sig } := by
  rcases hn : c.randNonce with e | nonce
  · simp [Api.sign, hn] at h
  rcases hd : getDurationForCertType c.parseDuration c.conf certType with e | d
  · simp [Api.sign, hn, hd] at h
  rcases hs : c.signCert (mkTemplate c keyId ps serial certType pk nonce d) with e | sig
  · simp [Api.sign, hn, hd, hs] at h
  · simp [Api.sign, hn, hd, hs] at h
    exact ⟨nonce, sig, d, rfl, rfl, hs, h.symm⟩

/-- Membership in the host handler's signed-certificate list decomposes into
the pipeline's stages: transport authentication passed, the key parsed, the
ledger call returned a serial, signHost produced exactly this certificate,
and the single ledger call is recorded. -/
theorem enroll_ok_elim (c : Api) (hostname : String) (r : Request) (cert : Certificate)
    (h : cert ∈ (c.Enroll hostname r).signedCerts) :
    ∃ pk id,
      clientAuthenticated r = true ∧
      clientHostnameMatches hostname r = true ∧
      readPubkey r = .ok pk ∧
      c.recordIssuance sshHostCert hostname pk = .ok id ∧
      c.signHost hostname id pk = .ok cert ∧
      (c.Enroll hostname r).ledgerCalls = [⟨sshHostCert, hostname, pk⟩] := by
  cases hca : clientAuthenticated r with
  | false => simp [Api.Enroll, hca] at h
  | true =>
    cases hm : clientHostnameMatches hostname r with
    | false => simp [Api.Enroll, hca, hm] at h
    | true =>
      rcases hk : readPubkey r with e | pk
      · simp [Api.Enroll, Api.EnrollHost, hca, hm, hk] at h
      rcases hrec : c.recordIssuance sshHostCert hostname pk with e | id
      · simp [Api.Enroll, Api.EnrollHost, hca, hm, hk, hrec] at h
      rcases hsh : c.signHost hostname id pk with e | sc
      · simp [Api.Enroll, Api.EnrollHost, hca, hm, hk, hrec, hsh] at h
      · have hc : cert = sc := by
          simp [Api.Enroll, Api.EnrollHost, encodeCert, hca, hm, hk, hrec, hsh] at h
          exact h
        subst hc
        exact ⟨pk, id, rfl, rfl, rfl, hrec, hsh, by
          simp [Api.Enroll, Api.EnrollHost, encodeCert, hca, hm, hk, hrec, hsh]⟩

/-- Membership in the user handler's signed-certificate list decomposes into
the pipeline's stages: proxy authorization produced a username, the key
parsed, the ledger call returned a serial, sign produced exactly this
certificate with principals [user], and the single ledger call is
recorded. -/
theorem enrollUser_ok_elim (c : Api) (r : Request) (cert : Certificate)
    (h : cert ∈ (c.EnrollUser r).signedCerts) :
    ∃ user pk id,
      proxyAuthenticated c.conf.authenticatingProxy r = .ok user ∧
      readPubkey r = .ok pk ∧
      c.recordIssuance sshUserCert user pk = .ok id ∧
      c.sign user [user] id sshUserCert pk = .ok cert ∧
      (c.EnrollUser r).ledgerCalls = [⟨sshUserCert, user, pk⟩] := by
  rcases hp : proxyAuthenticated c.conf.authenticatingProxy r with resp | user
  · simp [Api.EnrollUser, hp] at h
  rcases hk : readPubkey r with e | pk
  · simp [Api.EnrollUser, hp, hk] at h
  rcases hrec : c.recordIssuance sshUserCert user pk with e | id
  · simp [Api.EnrollUser, hp, hk, hrec] at h
  rcases hs : c.sign user [user] id sshUserCert pk with e | sc
  · simp [Api.EnrollUser, hp, hk, hrec, hs] at h
  · have hc : cert = sc := by
      simp [Api.EnrollUser, encodeCert, hp, hk, hrec, hs] at h
      exact h
    subst hc
    exact ⟨user, pk, id, rfl, rfl, hrec, hs, by
      simp [Api.EnrollUser, encodeCert, hp, hk, hrec, hs]⟩

/-- The principal list Api.signHost builds coincides with the spec's
principal-derivation rule for host certificates. -/
theorem hostPrincipals_eq_spec (conf : Config) (hostname : String) :
    hostPrincipals conf hostname = derivePrincipalsHost conf hostname := by
  unfold hostPrincipals derivePrincipalsHost
  cases hif : conf.stripSuffix != "" && goHasSuffix hostname conf.stripSuffix <;>
    cases hlk : List.lookup hostname conf.aliases <;>
      simp [hif, hlk]

/-- Map assignment with value "" preserves the invariant that every value
in the map is "". -/
theorem mapSet_snd_empty (m : List (String × String)) (e : String)
    (hv : ∀ p ∈ m, p.2 = "") : ∀ p ∈ mapSet m e "", p.2 = "" := by
  intro p hp
  unfold mapSet at hp
  split at hp
  · obtain ⟨q, hq, hfq⟩ := List.mem_map.mp hp
    cases hqe : q.1 == e with
    | true => simp [hqe] at hfq; rw [← hfq]
    | false => simp [hqe] at hfq; rw [← hfq]; exact hv q hq
  · rcases List.mem_append.mp hp with h1 | h1
    · exact hv p h1
    · simp only [List.mem_singleton] at h1
      rw [h1]

/-- Map assignment adds exactly the assigned key to the key set. -/
theorem mapSet_keys (m : List (String × String)) (e k : String) :
    k ∈ (mapSet m e "").map Prod.fst ↔ (k ∈ m.map Prod.fst ∨ k = e) := by
  unfold mapSet
  split
  next hany =>
    have hkeys : (m.map (fun p => if p.1 == e then (e, "") else p)).map Prod.fst
        = m.map Prod.fst := by
      rw [List.map_map]
      apply List.map_congr_left
      intro p _
      cases hpe : p.1 == e with
      | true => simp [hpe, beq_iff_eq.mp hpe]
      | false =>
        have hne : p.1 ≠ e := by simpa using hpe
        simp [hne]
    rw [hkeys]
    constructor
    · exact Or.inl
    · rintro (h | rfl)
      · exact h
      · obtain ⟨p, hp, hpe⟩ := List.any_eq_true.mp hany
        exact List.mem_map.mpr ⟨p, hp, beq_iff_eq.mp hpe⟩
  next _ =>
    rw [List.map_append]
    simp

/-- The extension-building fold produces exactly the input's keys, each
with value "", given that the accumulator already has only "" values. -/
theorem foldl_mapSet_mem (l : List String) (acc : List (String × String))
    (hv : ∀ p ∈ acc, p.2 = "") (k v : String) :
    ((k, v) ∈ l.foldl (fun m ext => mapSet m ext "") acc) ↔
      ((k ∈ acc.map Prod.fst ∨ k ∈ l) ∧ v = "") := by
  induction l generalizing acc with
  | nil =>
    rw [List.foldl_nil]
    constructor
    · intro h
      exact ⟨Or.inl (List.mem_map.mpr ⟨(k, v), h, rfl⟩), hv _ h⟩
    · rintro ⟨hk | hk, rfl⟩
      · obtain ⟨⟨p1, p2⟩, hp, hpk⟩ := List.mem_map.mp hk
        have hp2 := hv _ hp
        simp only at hpk hp2
        rw [← hpk, ← hp2]
        exact hp
      · exact absurd hk (List.not_mem_nil k)
  | cons e t ih =>
    rw [List.foldl_cons, ih (mapSet acc e "") (mapSet_snd_empty acc e hv),
      mapSet_keys acc e k, List.mem_cons]
    constructor
    · rintro ⟨h, rfl⟩
      exact ⟨by tauto, rfl⟩
    · rintro ⟨h, rfl⟩
      exact ⟨by tauto, rfl⟩

/-- For a user certificate with a non-empty configured extension list, the
permissions are the fold of map assignments over the configured names. -/
theorem getPermissions_user (cfg : SSHConf) (h : cfg.userCertExtensions.length > 0) :
    getPermissionsForCertType (some cfg) sshUserCert =
      ⟨[], cfg.userCertExtensions.foldl (fun m ext => mapSet m ext "") []⟩ := by
  unfold getPermissionsForCertType
  simp [h]

/-- C4: a host certificate's permissions are empty whatever the configured
user_cert_extensions list is; a user certificate with a non-empty
configured list carries exactly the configured extension names, each mapped
to the empty string. -/
theorem extension_gating :
    (∀ cfg : SSHConf, getPermissionsForCertType (some cfg) sshHostCert = ⟨[], []⟩) ∧
    (∀ cfg : SSHConf, cfg.userCertExtensions ≠ [] →
      ∀ k v, ((k, v) ∈ (getPermissionsForCertType (some cfg) sshUserCert).extensions ↔
        (k ∈ cfg.userCertExtensions ∧ v = ""))) := by
  constructor
  · intro cfg
    rfl
  · intro cfg hne k v
    rw [getPermissions_user cfg (List.length_pos.mpr hne)]
    rw [foldl_mapSet_mem cfg.userCertExtensions [] (by intro p hp; cases hp) k v]
    simp

/-- Witness for extension_gating at the concrete configuration confC. -/
theorem extension_gating_witness :
    getPermissionsForCertType (some confC.ssh) sshHostCert = ⟨[], []⟩ ∧
    (("permit-pty", "") ∈ (getPermissionsForCertType (some confC.ssh) sshUserCert).extensions ↔
      ("permit-pty" ∈ confC.ssh.userCertExtensions ∧ "" = "")) :=
  ⟨extension_gating.1 confC.ssh,
   extension_gating.2 confC.ssh (by decide) "permit-pty" ""⟩

/-- C1: for every successful issuance in either flow, the serial embedded
in the signed certificate equals exactly the serial returned by the
RecordIssuance call made for that request, which is also the only ledger
call of the request; the pipeline signs with no other serial value. -/
theorem serial_matches_ledger (c : Api) (hostname : String) (r : Request) :
    (∀ cert ∈ (c.Enroll hostname r).signedCerts,
      ∃ pk, readPubkey r = .ok pk ∧
        (c.Enroll hostname r).ledgerCalls = [⟨sshHostCert, hostname, pk⟩] ∧
        c.recordIssuance sshHostCert hostname pk = .ok cert.serial) ∧
    (∀ cert ∈ (c.EnrollUser r).signedCerts,
      ∃ user pk, proxyAuthenticated c.conf.authenticatingProxy r = .ok user ∧
        readPubkey r = .ok pk ∧
        (c.EnrollUser r).ledgerCalls = [⟨sshUserCert, user, pk⟩] ∧
        c.recordIssuance sshUserCert user pk = .ok cert.serial) := by
  constructor
  · intro cert hmem
    obtain ⟨pk, id, _, _, hk, hrec, hsh, hcalls⟩ := enroll_ok_elim c hostname r cert hmem
    obtain ⟨nonce, sig, d, _, _, _, hcert⟩ :=
      sign_ok_elim c hostname (hostPrincipals c.conf hostname) id sshHostCert pk cert hsh
    refine ⟨pk, hk, hcalls, ?_⟩
    rw [hcert]
    simpa [mkTemplate] using hrec
  · intro cert hmem
    obtain ⟨user, pk, id, hp, hk, hrec, hs, hcalls⟩ := enrollUser_ok_elim c r cert hmem
    obtain ⟨nonce, sig, d, _, _, _, hcert⟩ :=
      sign_ok_elim c user [user] id sshUserCert pk cert hs
    refine ⟨user, pk, hp, hk, hcalls, ?_⟩
    rw [hcert]
    simpa [mkTemplate] using hrec

/-- Witness for serial_matches_ledger at the concrete host issuance of
apiC, whose certificate carries the ledger's serial 42. -/
theorem serial_matches_ledger_witness :
    ∃ pk, readPubkey rHost = .ok pk ∧
      (apiC.Enroll "host.example.com" rHost).ledgerCalls = [⟨sshHostCert, "host.example.com", pk⟩] ∧
      apiC.recordIssuance sshHostCert "host.example.com" pk = .ok certHostC.serial :=
  (serial_matches_ledger apiC "host.example.com" rHost).1 certHostC (by decide)

/-- C2: a signed host certificate's principal list is exactly the identity,
then the suffix-stripped identity (only with a non-empty configured suffix
that the identity ends with), then the configured aliases in configured
order; on the claim's concrete example the list is
["host.example.com", "host", "a.example.com", "b.example.com"]. -/
theorem host_principal_composition :
    (∀ (c : Api) (hostname : String) (serial : Nat) (pk : PubKey) (cert : Certificate),
      c.signHost hostname serial pk = .ok cert →
      cert.validPrincipals = derivePrincipalsHost c.conf hostname) ∧
    (apiC.signHost "host.example.com" 42 pkC = .ok certHostC ∧
      certHostC.validPrincipals = ["host.example.com", "host", "a.example.com", "b.example.com"]) := by
  refine ⟨?_, rfl, rfl⟩
  intro c hostname serial pk cert hsh
  obtain ⟨nonce, sig, d, _, _, _, hcert⟩ :=
    sign_ok_elim c hostname (hostPrincipals c.conf hostname) serial sshHostCert pk cert hsh
  rw [hcert]
  simpa [mkTemplate] using hostPrincipals_eq_spec c.conf hostname

/-- Witness for host_principal_composition at the concrete host signing of
apiC. -/
theorem host_principal_composition_witness :
    certHostC.validPrincipals = derivePrincipalsHost apiC.conf "host.example.com" :=
  host_principal_composition.1 apiC "host.example.com" 42 pkC certHostC rfl

/-- C3: a signed user certificate's principal list is exactly the
authenticated username, whatever the suffix and alias configuration say;
moreover the username is precisely the configured header's value. -/
theorem user_principals_exact (c : Api) (r : Request) :
    (∀ cert ∈ (c.EnrollUser r).signedCerts,
      ∃ user, proxyAuthenticated c.conf.authenticatingProxy r = .ok user ∧
        cert.validPrincipals = [user]) ∧
    (∀ ap user, c.conf.authenticatingProxy = some ap →
      proxyAuthenticated c.conf.authenticatingProxy r = .ok user →
      user = r.header ap.usernameHeader) := by
  constructor
  · intro cert hmem
    obtain ⟨user, pk, id, hp, hk, hrec, hs, hcalls⟩ := enrollUser_ok_elim c r cert hmem
    obtain ⟨nonce, sig, d, _, _, _, hcert⟩ := sign_ok_elim c user [user] id sshUserCert pk cert hs
    exact ⟨user, hp, by rw [hcert]; simp [mkTemplate]⟩
  · intro ap user hap hp
    rw [hap] at hp
    cases hauth : clientAuthenticated r && clientHostnameMatches ap.hostname r with
    | false => simp [proxyAuthenticated, hauth] at hp
    | true =>
      cases hu : r.header ap.usernameHeader == "" with
      | true => simp [proxyAuthenticated, hauth, hu] at hp
      | false =>
        simp [proxyAuthenticated, hauth, hu] at hp
        exact hp.symm

/-- Witness for user_principals_exact at the concrete user issuance of
apiC: the username equals a configured alias key and ends with the
configured strip suffix, and the principal list is still just the
username. -/
theorem user_principals_exact_witness :
    ∃ user, proxyAuthenticated apiC.conf.authenticatingProxy rUserC = .ok user ∧
      certUserC.validPrincipals = [user] :=
  (user_principals_exact apiC rUserC).1 certUserC (by decide)

/-- Casting an in-range nonnegative integer through uint64 is lossless. -/
theorem toUint64_of_range (i : Int) (h0 : 0 ≤ i) (h1 : i < 2 ^ 64) :
    ((toUint64 i : Nat) : Int) = i := by
  unfold toUint64
  rw [Int.emod_eq_of_lt h0 h1, Int.toNat_of_nonneg h0]

/-- Adding a whole number of seconds to a time advances its Unix seconds by
exactly that count. -/
theorem unixSeconds_add_whole (t d : Int) (hd : (1000000000 : Int) ∣ d) :
    unixSeconds (t + d) = unixSeconds t + d / 1000000000 := by
  obtain ⟨k, rfl⟩ := hd
  unfold unixSeconds
  rw [Int.fdiv_eq_ediv _ (by norm_num), Int.fdiv_eq_ediv _ (by norm_num),
    Int.add_mul_ediv_left t k (by norm_num), Int.mul_ediv_cancel_left k (by norm_num)]

/-- C5 (amended): when the configured duration string for the cert type
parses, the parsed duration is a whole number of seconds, and the validity
window lies inside the uint64 range, the signed certificate's valid_after
is the request time in Unix seconds and valid_before - valid_after equals
exactly the configured duration.  (As stated, over all parseable durations,
the claim fails: see the counterexample with duration "1500ms".) -/
theorem validity_window_amended (c : Api) (keyId : String) (ps : List String) (serial certType : Nat) (pk : PubKey) (cert : Certificate) (d : Int)
    (hd : getDurationForCertType c.parseDuration c.conf certType = .ok d)
    (hsec : (1000000000 : Int) ∣ d)
    (hdpos : 0 ≤ d)
    (hlo : 0 ≤ unixSeconds c.nowNanos)
    (hhi : unixSeconds (c.nowNanos + d) < 2 ^ 64)
    (hsign : c.sign keyId ps serial certType pk = .ok cert) :
    (cert.validAfter : Int) = unixSeconds c.nowNanos ∧
    ((cert.validBefore : Int) - (cert.validAfter : Int)) * 1000000000 = d := by
  obtain ⟨nonce, sig, d', hn, hdur, hs, hcert⟩ :=
    sign_ok_elim c keyId ps serial certType pk cert hsign
  rw [hd] at hdur
  injection hdur with hdd
  subst hdd
  have hsum := unixSeconds_add_whole c.nowNanos d hsec
  have hknn : 0 ≤ d / 1000000000 := Int.ediv_nonneg hdpos (by norm_num)
  have hx1lt : unixSeconds c.nowNanos < 2 ^ 64 := by omega
  have hx2nn : 0 ≤ unixSeconds (c.nowNanos + d) := by omega
  have e1 := toUint64_of_range (unixSeconds c.nowNanos) hlo hx1lt
  have e2 := toUint64_of_range (unixSeconds (c.nowNanos + d)) hx2nn hhi
  rw [hcert]
  have hva : ({ mkTemplate c keyId ps serial certType pk nonce d with
      signature := some sig } : Certificate).validAfter = toUint64 (unixSeconds c.nowNanos) := rfl
  have hvb : ({ mkTemplate c keyId ps serial certType pk nonce d with
      signature := some sig } : Certificate).validBefore = toUint64 (unixSeconds (c.nowNanos + d)) := rfl
  rw [hva, hvb, e1, e2, hsum]
  refine ⟨rfl, ?_⟩
  have hcanc : unixSeconds c.nowNanos + d / 1000000000 - unixSeconds c.nowNanos
      = d / 1000000000 := by omega
  rw [hcanc, Int.ediv_mul_cancel hsec]

/-- Counterexample to C5 as stated: the host duration "1500ms" parses
successfully (to 1.5 s), yet the signed certificate's valid_before minus
valid_after is 1 second, not the configured duration. -/
theorem validity_window_cex :
    getDurationForCertType api1500.parseDuration api1500.conf sshHostCert = .ok 1500000000 ∧
    api1500.sign "h" ["h"] 1 sshHostCert pkC = .ok cert1500 ∧
    ¬(((cert1500.validBefore : Int) - (cert1500.validAfter : Int)) * 1000000000 = 1500000000) :=
  ⟨rfl, rfl, by decide⟩

/-- Witness for validity_window_amended at the concrete 168h host signing
of apiC: the window is exactly 604800 seconds. -/
theorem validity_window_amended_witness :
    (certHostC.validAfter : Int) = unixSeconds apiC.nowNanos ∧
    ((certHostC.validBefore : Int) - (certHostC.validAfter : Int)) * 1000000000 = 604800000000000 :=
  validity_window_amended apiC "host.example.com" (hostPrincipals apiC.conf "host.example.com")
    42 sshHostCert pkC certHostC 604800000000000 rfl ⟨604800, by decide⟩
    (by decide) (by decide) (by decide) rfl

/-- C6: host enrollment returns 401 with no ledger write (and no signing)
when no verified client chain is present, and 403 with no ledger write when
a chain is present but does not validate against the claimed hostname. -/
theorem host_auth_rejections (c : Api) (hostname : String) (r : Request) :
    (r.verifiedChains = [] →
      c.Enroll hostname r = ⟨⟨401, "no client certificate provided\n"⟩, [], []⟩) ∧
    (r.verifiedChains ≠ [] → clientHostnameMatches hostname r = false →
      c.Enroll hostname r = ⟨⟨403, "hostname does not match certificate\n"⟩, [], []⟩) := by
  constructor
  · intro hemp
    have hca : clientAuthenticated r = false := by
      unfold clientAuthenticated
      rw [hemp]
      rfl
    simp [Api.Enroll, hca]
  · intro hne hm
    have hca : clientAuthenticated r = true := by
      unfold clientAuthenticated
      simpa using List.length_pos.mpr hne
    simp [Api.Enroll, hca, hm]

/-- Witness for host_auth_rejections: the chainless request draws 401, the
wrong-hostname request draws 403, both with no ledger call. -/
theorem host_auth_rejections_witness :
    apiC.Enroll "host.example.com" rNoChain = ⟨⟨401, "no client certificate provided\n"⟩, [], []⟩ ∧
    apiC.Enroll "host.example.com" rWrongHost = ⟨⟨403, "hostname does not match certificate\n"⟩, [], []⟩ :=
  ⟨(host_auth_rejections apiC "host.example.com" rNoChain).1 rfl,
   (host_auth_rejections apiC "host.example.com" rWrongHost).2 (List.cons_ne_nil _ _) rfl⟩

/-- C7: user enrollment succeeds past authorization only when a proxy trust
descriptor is configured (else 404), the connection authenticates as the
configured proxy hostname (else 401), and the configured username header is
non-empty (else 401); each failure produces no ledger write and no signing,
and an empty username is never accepted. -/
theorem proxy_auth_gating (c : Api) (r : Request) :
    (c.conf.authenticatingProxy = none →
      c.EnrollUser r = ⟨⟨404, "client certificates are unavailable\n"⟩, [], []⟩) ∧
    (∀ ap, c.conf.authenticatingProxy = some ap →
      (clientAuthenticated r && clientHostnameMatches ap.hostname r) = false →
      c.EnrollUser r = ⟨⟨401, "request didn't come from proxy\n"⟩, [], []⟩) ∧
    (∀ ap, c.conf.authenticatingProxy = some ap →
      (clientAuthenticated r && clientHostnameMatches ap.hostname r) = true →
      r.header ap.usernameHeader = "" →
      c.EnrollUser r = ⟨⟨401, "no username supplied\n"⟩, [], []⟩) ∧
    (∀ user, proxyAuthenticated c.conf.authenticatingProxy r = .ok user → user ≠ "") := by
  refine ⟨?_, ?_, ?_, ?_⟩
  · intro hnone
    simp [Api.EnrollUser, proxyAuthenticated, hnone]
  · intro ap hap hauth
    simp [Api.EnrollUser, proxyAuthenticated, hap, hauth]
  · intro ap hap hauth hempty
    simp [Api.EnrollUser, proxyAuthenticated, hap, hauth, hempty]
  · intro user hp hue
    subst hue
    rcases hap : c.conf.authenticatingProxy with _ | ap
    · rw [hap] at hp
      simp [proxyAuthenticated] at hp
    · rw [hap] at hp
      cases hauth : clientAuthenticated r && clientHostnameMatches ap.hostname r with
      | false => simp [proxyAuthenticated, hauth] at hp
      | true =>
        cases hu : r.header ap.usernameHeader == "" with
        | true => simp [proxyAuthenticated, hauth, hu] at hp
        | false =>
          simp [proxyAuthenticated, hauth, hu] at hp
          simp [hp] at hu

/-- Witness for proxy_auth_gating: without a configured proxy descriptor
the user flow answers 404 and performs no ledger write. -/
theorem proxy_auth_gating_witness :
    apiNoProxy.EnrollUser rUserC = ⟨⟨404, "client certificates are unavailable\n"⟩, [], []⟩ :=
  (proxy_auth_gating apiNoProxy rUserC).1 rfl

/-- C8 (amended): each internal failure (ledger write, and inside signing
the nonce draw, duration resolution, or signature production) yields status
500, but the response body is the internal error's text followed by a
newline — the detail is passed through to the caller, not replaced by a
generic message.  (The claim's "generic message" part fails: see the
counterexample.) -/
theorem internal_error_passthrough (c : Api) (hostname : String) (r : Request) (pk : PubKey) (e : String) :
    (clientAuthenticated r = true → clientHostnameMatches hostname r = true →
      readPubkey r = .ok pk →
      ((c.recordIssuance sshHostCert hostname pk = .error e →
          (c.Enroll hostname r).response = ⟨500, e ++ "\n"⟩) ∧
       (∀ id, c.recordIssuance sshHostCert hostname pk = .ok id →
          c.signHost hostname id pk = .error e →
          (c.Enroll hostname r).response = ⟨500, e ++ "\n"⟩))) ∧
    (∀ user, proxyAuthenticated c.conf.authenticatingProxy r = .ok user →
      readPubkey r = .ok pk →
      ((c.recordIssuance sshUserCert user pk = .error e →
          (c.EnrollUser r).response = ⟨500, e ++ "\n"⟩) ∧
       (∀ id, c.recordIssuance sshUserCert user pk = .ok id →
          c.sign user [user] id sshUserCert pk = .error e →
          (c.EnrollUser r).response = ⟨500, e ++ "\n"⟩))) ∧
    (∀ keyId ps serial certType,
      (c.randNonce = .error e → c.sign keyId ps serial certType pk = .error e) ∧
      (∀ nonce, c.randNonce = .ok nonce →
        getDurationForCertType c.parseDuration c.conf certType = .error e →
        c.sign keyId ps serial certType pk = .error e) ∧
      (∀ nonce d, c.randNonce = .ok nonce →
        getDurationForCertType c.parseDuration c.conf certType = .ok d →
        c.signCert (mkTemplate c keyId ps serial certType pk nonce d) = .error e →
        c.sign keyId ps serial certType pk = .error e)) := by
  refine ⟨?_, ?_, ?_⟩
  · intro hca hm hk
    constructor
    · intro hrec
      simp [Api.Enroll, Api.EnrollHost, hca, hm, hk, hrec]
    · intro id hrec hsh
      simp [Api.Enroll, Api.EnrollHost, hca, hm, hk, hrec, hsh]
  · intro user hp hk
    constructor
    · intro hrec
      simp [Api.EnrollUser, hp, hk, hrec]
    · intro id hrec hs
      simp [Api.EnrollUser, hp, hk, hrec, hs]
  · intro keyId ps serial certType
    refine ⟨?_, ?_, ?_⟩
    · intro hn
      simp [Api.sign, hn]
    · intro nonce hn hdur
      simp [Api.sign, hn, hdur]
    · intro nonce d hn hdur hs
      simp [Api.sign, hn, hdur, hs]

/-- Counterexample to C8 as stated: with a failing storage backend the host
handler answers 500 and its body contains (indeed equals) the internal
error's detail text, so the body is not a detail-free generic message. -/
theorem internal_error_cex :
    apiStorageFail.recordIssuance sshHostCert "host.example.com" pkC = .error "disk failure: table locked" ∧
    (apiStorageFail.Enroll "host.example.com" rHost).response.code = 500 ∧
    ∃ pre post, (apiStorageFail.Enroll "host.example.com" rHost).response.body =
      pre ++ "disk failure: table locked" ++ post :=
  ⟨rfl, rfl, "", "\n", by decide⟩

/-- Witness for internal_error_passthrough at the concrete failing-storage
host request. -/
theorem internal_error_passthrough_witness :
    (apiStorageFail.Enroll "host.example.com" rHost).response = ⟨500, "disk failure: table locked" ++ "\n"⟩ :=
  ((internal_error_passthrough apiStorageFail "host.example.com" rHost pkC
    "disk failure: table locked").1 rfl rfl rfl).1 rfl

/-- Counterexample to C9 as stated: a host-enrollment request that passes
transport authentication but has an unparseable body is answered 500, not
the claimed 400. -/
theorem host_badkey_cex :
    clientAuthenticated rBadKey = true ∧
    clientHostnameMatches "host.example.com" rBadKey = true ∧
    readPubkey rBadKey = .error "ssh: no key found" ∧
    (apiC.Enroll "host.example.com" rBadKey).response.code = 500 ∧
    (apiC.Enroll "host.example.com" rBadKey).response.code ≠ 400 :=
  ⟨rfl, rfl, rfl, rfl, by decide⟩

/-- C9 (amended): a host-enrollment request that passes transport
authentication but whose body is not a parseable public key is answered
with status 500 carrying the parse error's text, and no ledger write
occurs. -/
theorem host_badkey_is_500 (c : Api) (hostname : String) (r : Request) (e : String)
    (hca : clientAuthenticated r = true)
    (hm : clientHostnameMatches hostname r = true)
    (hk : readPubkey r = .error e) :
    c.Enroll hostname r = ⟨⟨500, e ++ "\n"⟩, [], []⟩ := by
  simp [Api.Enroll, Api.EnrollHost, hca, hm, hk]

/-- Witness for host_badkey_is_500 at the concrete bad-key request. -/
theorem host_badkey_is_500_witness :
    apiC.Enroll "host.example.com" rBadKey = ⟨⟨500, "ssh: no key found" ++ "\n"⟩, [], []⟩ :=
  host_badkey_is_500 apiC "host.example.com" rBadKey "ssh: no key found" rfl rfl rfl

/-- C10: hostname matching is a function of the leaf certificate of the
first verified chain only, returns false outright when the chain list is
empty, and a 403 (Forbidden) outcome of the host handler implies a chain
was present. -/
theorem leaf_only_matching :
    (∀ (hostname : String) (r : Request),
      clientHostnameMatches hostname r =
        ((r.verifiedChains.head?.map fun ch => ch.leaf.verifyHostnameOk hostname).getD false)) ∧
    (∀ (hostname : String) (r : Request), r.verifiedChains = [] →
      clientHostnameMatches hostname r = false) ∧
    (∀ (c : Api) (hostname : String) (r : Request),
      (c.Enroll hostname r).response.code = 403 → r.verifiedChains ≠ []) := by
  refine ⟨?_, ?_, ?_⟩
  · intro hostname r
    cases hr : r.verifiedChains with
    | nil => simp [clientHostnameMatches, hr]
    | cons ch t => simp [clientHostnameMatches, hr]
  · intro hostname r hemp
    simp [clientHostnameMatches, hemp]
  · intro c hostname r hcode hemp
    have hca : clientAuthenticated r = false := by
      unfold clientAuthenticated
      rw [hemp]
      rfl
    simp [Api.Enroll, hca] at hcode

/-- Witness for leaf_only_matching at the chainless request. -/
theorem leaf_only_matching_witness :
    clientHostnameMatches "host.example.com" rNoChain = false :=
  leaf_only_matching.2.1 "host.example.com" rNoChain rfl

end Sharkey
